import Mathlib

/-!
Verification of the taste/text analytics engine of the whiskey-tasting
journal app (`data/data.py`, `cache_utils.py`).

Python dicts are modelled as association lists (`List (String × α)`) that
keep insertion order: assignment to an existing key updates it in place,
assignment to a fresh key appends.  Python floats are modelled as exact
rationals (`ℚ`); the rating-weight table {5:1.0, 4:0.8, 3:0.6, 2:0.3, 1:0.1}
is exactly representable.  Fallible analysis entry points return `Option`.
-/

set_option maxRecDepth 4000

namespace Renew

/-- A tasting record as produced by `_parse_whiskey_row`: `rating` is parsed
with `int(row[7]) if row[7].isdigit() else 0`, hence an arbitrary
non-negative integer. -/
structure TastingRecord where
  id : String
  user_id : String
  whiskey_name : String
  taste_notes : List String
  rating : Nat
  memo : String
  deriving DecidableEq, Repr

/-- The soft-delete marker test used throughout `data.py`:
`memo.startswith('[삭제됨')`. -/
def isDeletedMemo (memo : String) : Bool :=
  memo.startsWith "[삭제됨"

/-- Models `Config.RATING_WEIGHTS`, the fixed star-rating weight table. -/
def RATING_WEIGHTS (r : Nat) : Option ℚ :=
  if r = 5 then some 1
  else if r = 4 then some (4/5)
  else if r = 3 then some (3/5)
  else if r = 2 then some (3/10)
  else if r = 1 then some (1/10)
  else none

/-! ### Python-dict model: insertion-ordered association lists -/

/-- Models `d.get(k, 0)` for a numeric Python dict: the value at the (unique) key,
`0` when absent. -/
def dictGet (d : List (String × ℚ)) (k : String) : ℚ :=
  match d with
  | [] => 0
  | p :: ps => if p.1 = k then p.2 else dictGet ps k

/-- Membership of a key in the dict. -/
def dictHasKey (d : List (String × ℚ)) (k : String) : Bool :=
  d.any (fun p => p.1 = k)

/-- Models `d[k] = d.get(k, 0) + w`: update the key in place when it exists,
append otherwise (Python dicts have unique keys and preserve insertion
order). -/
def dictAdd (d : List (String × ℚ)) (k : String) (w : ℚ) : List (String × ℚ) :=
  match d with
  | [] => [(k, w)]
  | p :: ps => if p.1 = k then (p.1, p.2 + w) :: ps else p :: dictAdd ps k w

/-! ### Recent-trend analyzer (`analyze_recent_taste_trend`) -/

/-- The weight applied to one surviving record in
`analyze_recent_taste_trend`: `RATING_WEIGHTS.get(rating, 0.6)`. -/
def recentWeight (rating : Nat) : ℚ :=
  (RATING_WEIGHTS rating).getD (3/5)

/-- Per-record accumulation: `for note in notes: weighted_counts[note] += weight`. -/
def accumRecord (d : List (String × ℚ)) (r : TastingRecord) : List (String × ℚ) :=
  r.taste_notes.foldl (fun d note => dictAdd d note (recentWeight r.rating)) d

/-- The `weighted_counts` dict built by `analyze_recent_taste_trend` from the
records surviving the `rating >= 3` filter, in iteration order. -/
def accumWeighted (records : List TastingRecord) : List (String × ℚ) :=
  records.foldl accumRecord []

/-- Stable insertion into a score-descending list: the new element goes in
front of the first element whose score is ≤ its own, so a later-inserted
element never overtakes an earlier one of equal score.  This models Python's
stable `sorted(..., key=lambda x: x[1], reverse=True)`. -/
def insertDesc (p : String × ℚ) : List (String × ℚ) → List (String × ℚ)
  | [] => [p]
  | q :: qs => if q.2 ≤ p.2 then p :: q :: qs else q :: insertDesc p qs

/-- Stable sort by accumulated weight, descending. -/
def sortDesc (l : List (String × ℚ)) : List (String × ℚ) :=
  l.foldr insertDesc []

/-- Models `_note_to_korean`. -/
def note_to_korean (note : String) : String :=
  if note = "fruity" then "프루티"
  else if note = "floral" then "플로럴"
  else if note = "sweet" then "스윗"
  else if note = "oaky" then "우디"
  else if note = "nutty" then "너티"
  else if note = "peaty" then "피트"
  else if note = "smoky" then "스모키"
  else if note = "spicy" then "스파이시"
  else note

/-- Result dict of `analyze_recent_taste_trend` in the non-`None` cases. -/
structure TrendResult where
  is_clear_trend : Bool
  top_note : Option String
  top_note_korean : Option String
  deriving DecidableEq, Repr

/-- The records `analyze_recent_taste_trend` weights: the newest
`min(n, len(records))` records, filtered to `rating >= 3`. -/
def recentFiltered (records : List TastingRecord) (n : Nat) : List TastingRecord :=
  (records.take (min n records.length)).filter (fun r => 3 ≤ r.rating)

/-- Models `analyze_recent_taste_trend(user_id, n)` after the record fetch: the
argument is `get_user_records(user_id)` (non-deleted, newest first). -/
def analyze_recent_taste_trend (records : List TastingRecord) (n : Nat := 10) :
    Option TrendResult :=
  if records.length < 5 then none
  else
    let filtered_records := recentFiltered records n
    if filtered_records.isEmpty then none
    else
      let weighted_counts := accumWeighted filtered_records
      if weighted_counts.isEmpty then none
      else
        let sorted_notes := sortDesc weighted_counts
        if sorted_notes.length < 2 then
          match sorted_notes with
          | [] => none
          | p :: _ =>
            some ⟨true, some p.1, some (note_to_korean p.1)⟩
        else
          match sorted_notes with
          | p :: q :: _ =>
            if q.2 * (3/2) ≤ p.2 then
              some ⟨true, some p.1, some (note_to_korean p.1)⟩
            else
              some ⟨false, none, none⟩
          | _ => none

/-! ### Stopwords, whitelist, morphological tokenizer, `_parse_memo_text` -/

/-- The global `STOPWORDS` set of `data.py`. -/
def STOPWORDS : List String :=
  ["느낌", "향", "맛", "노트", "스타일", "계열", "타입", "이미지", "캐릭터",
   "밸런스", "구성", "전반", "전체", "기본", "일반적", "평범", "무난",
   "바탕", "하프", "고인", "피니시", "숙성", "기분", "사이", "마무리",
   "도수", "코리아", "위스키", "아드벡",
   "조금", "약간", "매우", "너무", "꽤", "상당히", "살짝",
   "강한", "약한", "진한", "연한", "가벼운", "묵직한",
   "좋음", "별로", "괜찮", "싫음", "애매", "실망", "만족", "불호",
   "호불호", "취향", "비추", "추천",
   "가성비", "가격", "비쌈", "저렴", "구매", "재구매", "선물",
   "데일리", "입문", "초보", "고급", "한정", "에디션",
   "처음", "마지막", "이번", "예전", "요즘", "항상", "가끔", "자주",
   "기대", "생각", "느껴짐", "같음",
   "의", "을", "를", "이", "가", "은", "는", "에", "에서", "로", "으로",
   "하다", "되다", "있다", "없다", "같다",
   "올라오", "기반", "비하", "누르", "느끼"]

/-- A morphological token: surface form plus part-of-speech tag, as yielded
by `kiwi.analyze(memo)[0][0]`. -/
structure Token where
  form : String
  tag : String
  deriving DecidableEq, Repr

/-- The tokenizer backend: `_get_kiwi()` returns `None` when `kiwipiepy` is
unavailable, otherwise an analyzer mapping a memo to its token stream. -/
abbrev Tokenizer := Option (String → List Token)

/-- The word filter of `_parse_memo_text`: noun/verb tag, length > 1
code point, not a stopword, present in the whitelist. -/
def countable (whitelist : List String) (t : Token) : Bool :=
  (t.tag = "NNG" || t.tag = "NNP" || t.tag = "VV") &&
  (1 < t.form.length && !(STOPWORDS.contains t.form) && whitelist.contains t.form)

/-- Models `word_counts[word] = word_counts.get(word, 0) + 1` on a counting dict. -/
def countAdd (d : List (String × Nat)) (w : String) : List (String × Nat) :=
  match d with
  | [] => [(w, 1)]
  | p :: ps => if p.1 = w then (p.1, p.2 + 1) :: ps else p :: countAdd ps w

/-- Count contributions of a single memo's token stream. -/
def countMemo (whitelist : List String) (tokens : List Token)
    (d : List (String × Nat)) : List (String × Nat) :=
  tokens.foldl (fun d t => if countable whitelist t then countAdd d t.form else d) d

/-- Models `_parse_memo_text(memo_list)`: empty result when the tokenizer is
unavailable; otherwise skip empty and soft-deleted memos, tokenize the rest
and count the words passing `countable`. -/
def parse_memo_text (kiwi : Tokenizer) (whitelist : List String)
    (memo_list : List String) : List (String × Nat) :=
  match kiwi with
  | none => []
  | some analyze =>
    memo_list.foldl
      (fun d memo =>
        if memo = "" || isDeletedMemo memo then d
        else countMemo whitelist (analyze memo) d)
      []

/-! ### Full-history analyzer (`get_user_taste_analysis`) -/

/-- The weight applied per record in `get_user_taste_analysis`:
`RATING_WEIGHTS.get(rating, 0)`. -/
def fullWeight (rating : Nat) : ℚ :=
  (RATING_WEIGHTS rating).getD 0

/-- Result dict of `get_user_taste_analysis` in the non-`None` case. -/
structure TasteAnalysisResult where
  main_expressions : List (String × ℚ)
  sub_expressions : List (String × ℚ)
  memo_wordcloud : List (String × Nat)
  total_count : Nat
  deriving DecidableEq, Repr

/-- One step of the bucket loop: tags go to `main_expressions` when
`rating >= 4`, to `sub_expressions` when `rating <= 2`, to neither at 3. -/
def bucketStep (acc : List (String × ℚ) × List (String × ℚ)) (r : TastingRecord) :
    List (String × ℚ) × List (String × ℚ) :=
  r.taste_notes.foldl
    (fun acc note =>
      if 4 ≤ r.rating then (dictAdd acc.1 note (fullWeight r.rating), acc.2)
      else if r.rating ≤ 2 then (acc.1, dictAdd acc.2 note (fullWeight r.rating))
      else acc)
    acc

/-- The `(main_expressions, sub_expressions)` pair accumulated over a record
list. -/
def buckets (records : List TastingRecord) :
    List (String × ℚ) × List (String × ℚ) :=
  records.foldl bucketStep ([], [])

/-- The memos `get_user_taste_analysis` collects for the wordcloud: non-empty
and not soft-deleted, in record order. -/
def collectMemos (records : List TastingRecord) : List String :=
  (records.filter (fun r => r.memo ≠ "" ∧ isDeletedMemo r.memo = false)).map
    (fun r => r.memo)

/-- Models `get_user_taste_analysis(user_id)` after the cache probe and record
fetch: the argument is `get_user_records(user_id)`. -/
def get_user_taste_analysis (kiwi : Tokenizer) (whitelist : List String)
    (records : List TastingRecord) : Option TasteAnalysisResult :=
  if records.length < 5 then none
  else
    let bs := buckets records
    some
      { main_expressions := bs.1
        sub_expressions := bs.2
        memo_wordcloud := parse_memo_text kiwi whitelist (collectMemos records)
        total_count := records.length }

/-! ### Result cache (`cache_utils.py`) -/

/-- Models `_CACHE_TTL = 300` seconds. -/
def CACHE_TTL : ℚ := 300

/-- The flat cache mapping: key to (value, insertion timestamp), in
insertion order. -/
abbrev CacheState (V : Type) := List (String × V × ℚ)

/-- Models `get_cache(key)` at time `now`: fresh entry returned as-is, expired
entry deleted (behaves as absent), missing key absent. -/
def get_cache {V : Type} (st : CacheState V) (key : String) (now : ℚ) :
    Option V × CacheState V :=
  match List.find? (fun p => p.1 = key) st with
  | some p =>
    if now - p.2.2 < CACHE_TTL then (some p.2.1, st)
    else (none, List.eraseP (fun p => p.1 = key) st)
  | none => (none, st)

/-- Models `set_cache(key, value)` at time `now`: dict assignment, updating in
place or appending. -/
def set_cache {V : Type} (st : CacheState V) (key : String) (v : V) (now : ℚ) :
    CacheState V :=
  match st with
  | [] => [(key, v, now)]
  | p :: ps => if p.1 = key then (key, v, now) :: ps else p :: set_cache ps key v now

/-- Models `get_user_taste_analysis` with its cache wrapper: probe the cache under
key `taste_analysis:{user_id}`; on a hit return the cached value, on a miss
compute and (when non-`None`) store the result. -/
def get_user_taste_analysis_cached (kiwi : Tokenizer) (whitelist : List String)
    (records : List TastingRecord) (user_id : String)
    (st : CacheState TasteAnalysisResult) (now : ℚ) :
    Option TasteAnalysisResult × CacheState TasteAnalysisResult :=
  match get_cache st ("taste_analysis:" ++ user_id) now with
  | (some cached, st') => (some cached, st')
  | (none, st') =>
    match get_user_taste_analysis kiwi whitelist records with
    | none => (none, st')
    | some result =>
      (some result, set_cache st' ("taste_analysis:" ++ user_id) result now)

/-! ### Similarity & cross-user aggregators -/

/-- The record filter of `get_similar_users_memo_wordcloud`: not the caller,
memo present and not soft-deleted, `taste_notes` intersecting the reference
tags. -/
def similarQualifies (user_id : String) (user_notes : List String)
    (r : TastingRecord) : Bool :=
  r.user_id ≠ user_id &&
  (r.memo ≠ "" && isDeletedMemo r.memo = false) &&
  r.taste_notes.any (fun note => user_notes.contains note)

/-- Models `get_similar_users_memo_wordcloud(user_id, user_notes)` after the record
fetch: the argument `all_records` is `data_manager.get_all_records()`. -/
def get_similar_users_memo_wordcloud (kiwi : Tokenizer) (whitelist : List String)
    (all_records : List TastingRecord) (user_id : String)
    (user_notes : List String) : List (String × Nat) :=
  if user_notes.isEmpty then []
  else
    let similar_memos :=
      (all_records.filter (similarQualifies user_id user_notes)).map
        (fun r => r.memo)
    if similar_memos.isEmpty then []
    else parse_memo_text kiwi whitelist similar_memos

/-- The record filter of `get_product_reviews_wordcloud`: not the caller,
exact (case-sensitive) product-name match, memo present and not
soft-deleted. -/
def productQualifies (user_id whiskey_name : String) (r : TastingRecord) : Bool :=
  r.user_id ≠ user_id &&
  r.whiskey_name = whiskey_name &&
  (r.memo ≠ "" && isDeletedMemo r.memo = false)

/-- Result dict of `get_product_reviews_wordcloud`. -/
structure ProductReviewsResult where
  wordcloud : List (String × Nat)
  count : Nat
  has_data : Bool
  deriving DecidableEq, Repr

/-- Models `get_product_reviews_wordcloud(user_id, whiskey_name)` after the record
fetch. -/
def get_product_reviews_wordcloud (kiwi : Tokenizer) (whitelist : List String)
    (all_records : List TastingRecord) (user_id whiskey_name : String) :
    ProductReviewsResult :=
  let similar_memos :=
    (all_records.filter (productQualifies user_id whiskey_name)).map
      (fun r => r.memo)
  if similar_memos.isEmpty then ⟨[], 0, false⟩
  else ⟨parse_memo_text kiwi whitelist similar_memos, similar_memos.length, true⟩

/-! ### Shared lemmas about the dict model -/

theorem dictGet_dictAdd (d : List (String × ℚ)) (k m : String) (w : ℚ) :
    dictGet (dictAdd d k w) m = dictGet d m + (if m = k then w else 0) := by
  induction d with
  | nil =>
    by_cases h : m = k <;> simp [dictAdd, dictGet, h]
    · intro h'; exact absurd h'.symm h
  | cons p ps ih =>
    by_cases hpk : p.1 = k
    · by_cases hm : p.1 = m <;> by_cases hmk : m = k <;>
        simp_all [dictAdd, dictGet]
    · by_cases hm : p.1 = m
      · have : ¬ m = k := fun h => hpk (hm.trans h)
        simp [dictAdd, hpk, dictGet, hm, this]
      · simp [dictAdd, hpk, dictGet, hm, ih]

theorem dictGet_foldl_notes (w : ℚ) (t : String) :
    ∀ (notes : List String) (d : List (String × ℚ)),
    dictGet (notes.foldl (fun d note => dictAdd d note w) d) t =
      dictGet d t + (notes.count t : ℚ) * w := by
  intro notes
  induction notes with
  | nil => intro d; simp
  | cons note rest ih =>
    intro d
    by_cases h : t = note
    · subst h
      rw [List.foldl_cons, ih, dictGet_dictAdd]
      simp [List.count_cons]
      ring
    · have hnt : ¬ (note = t) := fun h' => h h'.symm
      rw [List.foldl_cons, ih, dictGet_dictAdd]
      simp [List.count_cons, h, hnt]

theorem dictGet_accumRecord (d : List (String × ℚ)) (r : TastingRecord) (t : String) :
    dictGet (accumRecord d r) t =
      dictGet d t + (r.taste_notes.count t : ℚ) * recentWeight r.rating := by
  unfold accumRecord
  exact dictGet_foldl_notes (recentWeight r.rating) t r.taste_notes d

theorem dictGet_foldl_accumRecord (t : String) :
    ∀ (records : List TastingRecord) (d : List (String × ℚ)),
    dictGet (records.foldl accumRecord d) t =
      dictGet d t +
        (records.map
          (fun r => (r.taste_notes.count t : ℚ) * recentWeight r.rating)).sum := by
  intro records
  induction records with
  | nil => intro d; simp
  | cons r rest ih =>
    intro d
    simp [List.foldl_cons, ih, dictGet_accumRecord]
    ring

theorem dictGet_accumWeighted (records : List TastingRecord) (t : String) :
    dictGet (accumWeighted records) t =
      (records.map
        (fun r => (r.taste_notes.count t : ℚ) * recentWeight r.rating)).sum := by
  unfold accumWeighted
  simpa [dictGet] using dictGet_foldl_accumRecord t records []

/-! ### Cache lemmas -/

theorem get_user_taste_analysis_cached_of_miss (kiwi : Tokenizer)
    (whitelist : List String) (records : List TastingRecord) (user_id : String)
    (st st₁ : CacheState TasteAnalysisResult) (now : ℚ)
    (h : get_cache st ("taste_analysis:" ++ user_id) now = (none, st₁)) :
    get_user_taste_analysis_cached kiwi whitelist records user_id st now =
      match get_user_taste_analysis kiwi whitelist records with
      | none => (none, st₁)
      | some result =>
        (some result, set_cache st₁ ("taste_analysis:" ++ user_id) result now) := by
  unfold get_user_taste_analysis_cached
  rw [h]

theorem get_user_taste_analysis_cached_of_hit (kiwi : Tokenizer)
    (whitelist : List String) (records : List TastingRecord) (user_id : String)
    (st st₁ : CacheState TasteAnalysisResult) (now : ℚ) (v : TasteAnalysisResult)
    (h : get_cache st ("taste_analysis:" ++ user_id) now = (some v, st₁)) :
    get_user_taste_analysis_cached kiwi whitelist records user_id st now =
      (some v, st₁) := by
  unfold get_user_taste_analysis_cached
  rw [h]

/-! ### C1 -/

/-- C1: for a user with fewer than 5 non-deleted records, both the
full-history analysis and the recent-trend analysis return `None` (the
functions are total in the model, so no exception is possible); the cached
entry point also yields `None` on a cache miss. -/
theorem C1_insufficient_records_give_none (kiwi : Tokenizer)
    (whitelist : List String) (records : List TastingRecord) (n : Nat)
    (h : records.length < 5) :
    analyze_recent_taste_trend records n = none ∧
    get_user_taste_analysis kiwi whitelist records = none ∧
    (∀ (user_id : String) (st st₁ : CacheState TasteAnalysisResult) (now : ℚ),
      get_cache st ("taste_analysis:" ++ user_id) now = (none, st₁) →
      (get_user_taste_analysis_cached kiwi whitelist records user_id st now).1 =
        none) := by
  refine ⟨?_, ?_, ?_⟩
  · unfold analyze_recent_taste_trend
    rw [if_pos h]
  · unfold get_user_taste_analysis
    rw [if_pos h]
  · intro user_id st st₁ now hmiss
    rw [get_user_taste_analysis_cached_of_miss kiwi whitelist records user_id
      st st₁ now hmiss]
    unfold get_user_taste_analysis
    rw [if_pos h]

/-- Witness for C1 at a concrete 4-record user (inner quantifiers also
instantiated concretely, with an empty cache). -/
theorem C1_witness :
    analyze_recent_taste_trend
      [⟨"1", "u", "w", ["spicy"], 5, "m"⟩, ⟨"2", "u", "w", ["spicy"], 4, "m"⟩,
       ⟨"3", "u", "w", ["sweet"], 3, "m"⟩, ⟨"4", "u", "w", ["peaty"], 2, "m"⟩]
      10 = none ∧
    get_user_taste_analysis none []
      [⟨"1", "u", "w", ["spicy"], 5, "m"⟩, ⟨"2", "u", "w", ["spicy"], 4, "m"⟩,
       ⟨"3", "u", "w", ["sweet"], 3, "m"⟩, ⟨"4", "u", "w", ["peaty"], 2, "m"⟩]
      = none ∧
    (get_user_taste_analysis_cached none []
      [⟨"1", "u", "w", ["spicy"], 5, "m"⟩, ⟨"2", "u", "w", ["spicy"], 4, "m"⟩,
       ⟨"3", "u", "w", ["sweet"], 3, "m"⟩, ⟨"4", "u", "w", ["peaty"], 2, "m"⟩]
      "u" [] 0).1 = none :=
  have h := C1_insufficient_records_give_none none []
    [⟨"1", "u", "w", ["spicy"], 5, "m"⟩, ⟨"2", "u", "w", ["spicy"], 4, "m"⟩,
     ⟨"3", "u", "w", ["sweet"], 3, "m"⟩, ⟨"4", "u", "w", ["peaty"], 2, "m"⟩]
    10 (by decide)
  ⟨h.1, h.2.1, h.2.2 "u" [] [] 0 rfl⟩

/-! ### C2 -/

theorem recentWeight_eq_table (rating : Nat) (h3 : 3 ≤ rating) (h5 : rating ≤ 5) :
    recentWeight rating =
      (if rating = 5 then (1 : ℚ) else if rating = 4 then 4/5 else 3/5) := by
  interval_cases rating <;> norm_num [recentWeight, RATING_WEIGHTS]

theorem recent_sum_eq_table_sum (t : String) :
    ∀ (l : List TastingRecord),
    (∀ r ∈ l, r.taste_notes.Nodup) →
    (∀ r ∈ l, 1 ≤ r.rating ∧ r.rating ≤ 5) →
    ((l.filter (fun r => 3 ≤ r.rating)).map
        (fun r => (r.taste_notes.count t : ℚ) * recentWeight r.rating)).sum =
      ((l.filter (fun r => 3 ≤ r.rating ∧ t ∈ r.taste_notes)).map
        (fun r => if r.rating = 5 then (1 : ℚ)
                  else if r.rating = 4 then 4/5 else 3/5)).sum := by
  intro l
  induction l with
  | nil => intro _ _; simp
  | cons r rest ih =>
    intro hnodup hrange
    have hnodup' : ∀ x ∈ rest, x.taste_notes.Nodup :=
      fun x hx => hnodup x (List.mem_cons_of_mem r hx)
    have hrange' : ∀ x ∈ rest, 1 ≤ x.rating ∧ x.rating ≤ 5 :=
      fun x hx => hrange x (List.mem_cons_of_mem r hx)
    have hr := hrange r (List.mem_cons_self r rest)
    by_cases h3 : 3 ≤ r.rating
    · by_cases hmem : t ∈ r.taste_notes
      · have hcount : r.taste_notes.count t = 1 :=
          List.count_eq_one_of_mem (hnodup r (List.mem_cons_self r rest)) hmem
        have htable := recentWeight_eq_table r.rating h3 hr.2
        simp [List.filter_cons, h3, hmem, hcount, ih hnodup' hrange', htable]
      · have hcount : r.taste_notes.count t = 0 :=
          List.count_eq_zero.mpr hmem
        simp [List.filter_cons, h3, hmem, hcount, ih hnodup' hrange']
    · simp [List.filter_cons, h3, ih hnodup' hrange']

/-- C2: for a user with at least 5 records and all ratings in 1–5, the
per-tag weighted score accumulated by `analyze_recent_taste_trend` equals
the exact sum, over the newest `min(n, len(records))` records that have
rating ≥ 3 and carry the tag, of the fixed table weight
{5: 1.0, 4: 0.8, 3: 0.6}; records with rating < 3 never contribute. -/
theorem C2_recent_weighted_score_eq_table_sum (records : List TastingRecord)
    (n : Nat) (t : String)
    (_hlen : 5 ≤ records.length)
    (hnodup : ∀ r ∈ records, r.taste_notes.Nodup)
    (hrange : ∀ r ∈ records, 1 ≤ r.rating ∧ r.rating ≤ 5) :
    dictGet (accumWeighted (recentFiltered records n)) t =
      (((records.take (min n records.length)).filter
          (fun r => 3 ≤ r.rating ∧ t ∈ r.taste_notes)).map
        (fun r => if r.rating = 5 then (1 : ℚ)
                  else if r.rating = 4 then 4/5 else 3/5)).sum := by
  rw [dictGet_accumWeighted]
  unfold recentFiltered
  exact recent_sum_eq_table_sum t (records.take (min n records.length))
    (fun r hr => hnodup r (List.take_subset _ _ hr))
    (fun r hr => hrange r (List.take_subset _ _ hr))

/-- Witness for C2: the spec's own example, two records tagged `spicy` with
ratings 5 and 4 give `spicy` weight 1.0 + 0.8 = 1.8. -/
theorem C2_witness :
    dictGet
      (accumWeighted (recentFiltered
        [⟨"1", "u", "w", ["spicy"], 5, "m"⟩, ⟨"2", "u", "w", ["spicy"], 4, "m"⟩,
         ⟨"3", "u", "w", ["sweet"], 3, "m"⟩, ⟨"4", "u", "w", ["peaty"], 2, "m"⟩,
         ⟨"5", "u", "w", ["oaky"], 1, "m"⟩] 10))
      "spicy" = 9/5 :=
  (C2_recent_weighted_score_eq_table_sum
    [⟨"1", "u", "w", ["spicy"], 5, "m"⟩, ⟨"2", "u", "w", ["spicy"], 4, "m"⟩,
     ⟨"3", "u", "w", ["sweet"], 3, "m"⟩, ⟨"4", "u", "w", ["peaty"], 2, "m"⟩,
     ⟨"5", "u", "w", ["oaky"], 1, "m"⟩] 10 "spicy"
    (by decide) (by decide) (by decide)).trans (by simp; norm_num)

/-! ### C3 -/

/-- C3: with at least 5 records, `analyze_recent_taste_trend` yields a clear
trend on the single tag when exactly one distinct tag accumulated weight;
with two or more tags it yields a clear trend on the top tag iff the top
weighted score is ≥ 1.5 × the second score, and otherwise
`is_clear_trend = false`; when no tag accumulated weight it returns `None`. -/
theorem C3_trend_verdict (records : List TastingRecord) (n : Nat)
    (hlen : 5 ≤ records.length) :
    (accumWeighted (recentFiltered records n) = [] →
      analyze_recent_taste_trend records n = none) ∧
    (∀ p, sortDesc (accumWeighted (recentFiltered records n)) = [p] →
      analyze_recent_taste_trend records n =
        some ⟨true, some p.1, some (note_to_korean p.1)⟩) ∧
    (∀ p q rest,
      sortDesc (accumWeighted (recentFiltered records n)) = p :: q :: rest →
      analyze_recent_taste_trend records n =
        (if p.2 ≥ (3/2) * q.2 then
          some ⟨true, some p.1, some (note_to_korean p.1)⟩
         else some ⟨false, none, none⟩)) := by
  have hge : ¬ records.length < 5 := not_lt.mpr hlen
  refine ⟨?_, ?_, ?_⟩
  · intro h
    by_cases hf : (recentFiltered records n).isEmpty
    · simp [analyze_recent_taste_trend, hge, hf]
    · simp [analyze_recent_taste_trend, hge, hf, h]
  · intro p hp
    by_cases hf : (recentFiltered records n).isEmpty
    · exfalso
      rw [List.isEmpty_iff] at hf
      rw [hf] at hp
      simp [accumWeighted, sortDesc] at hp
    · have hw : ¬ (accumWeighted (recentFiltered records n)).isEmpty := by
        intro hw
        rw [List.isEmpty_iff] at hw
        rw [hw] at hp
        simp [sortDesc] at hp
      simp [analyze_recent_taste_trend, hge, hf, hw, hp]
  · intro p q rest hp
    by_cases hf : (recentFiltered records n).isEmpty
    · exfalso
      rw [List.isEmpty_iff] at hf
      rw [hf] at hp
      simp [accumWeighted, sortDesc] at hp
    · have hw : ¬ (accumWeighted (recentFiltered records n)).isEmpty := by
        intro hw
        rw [List.isEmpty_iff] at hw
        rw [hw] at hp
        simp [sortDesc] at hp
      by_cases hcmp : q.2 * (3/2) ≤ p.2
      · have hcmp' : p.2 ≥ (3/2) * q.2 := by rw [mul_comm] at hcmp; exact hcmp
        simp [analyze_recent_taste_trend, hge, hf, hw, hp, hcmp, hcmp']
      · have hcmp' : ¬ p.2 ≥ (3/2) * q.2 := by rw [mul_comm] at hcmp; exact hcmp
        simp [analyze_recent_taste_trend, hge, hf, hw, hp, hcmp, hcmp']

/-- Witness for C3: with scores `a = 1.0` and `b = 0.8` (ratio 1.25 < 1.5)
the verdict is not a clear trend; with scores `a = 1.0` and `b = 0.6`
(ratio ≈ 1.67 ≥ 1.5) it is a clear trend on `a`; with a single distinct tag
the verdict is a clear trend on that tag. -/
theorem C3_witness :
    analyze_recent_taste_trend
      [⟨"1", "u", "w", ["a"], 5, "m"⟩, ⟨"2", "u", "w", ["b"], 4, "m"⟩,
       ⟨"3", "u", "w", [], 3, "m"⟩, ⟨"4", "u", "w", [], 3, "m"⟩,
       ⟨"5", "u", "w", [], 3, "m"⟩] 10 = some ⟨false, none, none⟩ ∧
    analyze_recent_taste_trend
      [⟨"1", "u", "w", ["a"], 5, "m"⟩, ⟨"2", "u", "w", ["b"], 3, "m"⟩,
       ⟨"3", "u", "w", [], 3, "m"⟩, ⟨"4", "u", "w", [], 3, "m"⟩,
       ⟨"5", "u", "w", [], 3, "m"⟩] 10 =
      some ⟨true, some "a", some (note_to_korean "a")⟩ ∧
    analyze_recent_taste_trend
      [⟨"1", "u", "w", ["a"], 5, "m"⟩, ⟨"2", "u", "w", [], 3, "m"⟩,
       ⟨"3", "u", "w", [], 3, "m"⟩, ⟨"4", "u", "w", [], 3, "m"⟩,
       ⟨"5", "u", "w", [], 3, "m"⟩] 10 =
      some ⟨true, some "a", some (note_to_korean "a")⟩ := by
  refine ⟨?_, ?_, ?_⟩
  · refine ((C3_trend_verdict
      [⟨"1", "u", "w", ["a"], 5, "m"⟩, ⟨"2", "u", "w", ["b"], 4, "m"⟩,
       ⟨"3", "u", "w", [], 3, "m"⟩, ⟨"4", "u", "w", [], 3, "m"⟩,
       ⟨"5", "u", "w", [], 3, "m"⟩] 10 (by decide)).2.2
      ("a", 1) ("b", 4/5) [] ?_).trans ?_
    · norm_num [recentFiltered, accumWeighted, accumRecord, dictAdd,
        sortDesc, recentWeight, RATING_WEIGHTS]
      simp only [String.reduceEq, if_false]
      norm_num [insertDesc]
    · norm_num
  · refine ((C3_trend_verdict
      [⟨"1", "u", "w", ["a"], 5, "m"⟩, ⟨"2", "u", "w", ["b"], 3, "m"⟩,
       ⟨"3", "u", "w", [], 3, "m"⟩, ⟨"4", "u", "w", [], 3, "m"⟩,
       ⟨"5", "u", "w", [], 3, "m"⟩] 10 (by decide)).2.2
      ("a", 1) ("b", 3/5) [] ?_).trans ?_
    · norm_num [recentFiltered, accumWeighted, accumRecord, dictAdd,
        sortDesc, recentWeight, RATING_WEIGHTS]
      simp only [String.reduceEq, if_false]
      norm_num [insertDesc]
    · norm_num
  · exact (C3_trend_verdict
      [⟨"1", "u", "w", ["a"], 5, "m"⟩, ⟨"2", "u", "w", [], 3, "m"⟩,
       ⟨"3", "u", "w", [], 3, "m"⟩, ⟨"4", "u", "w", [], 3, "m"⟩,
       ⟨"5", "u", "w", [], 3, "m"⟩] 10 (by decide)).2.1
      ("a", 1) (by
        norm_num [recentFiltered, accumWeighted, accumRecord, dictAdd,
          sortDesc, insertDesc, recentWeight, RATING_WEIGHTS])

/-! ### C4 -/

theorem foldl_pair_fst (f : List (String × ℚ) → String → List (String × ℚ)) :
    ∀ (notes : List String) (acc : List (String × ℚ) × List (String × ℚ)),
    notes.foldl (fun acc note => (f acc.1 note, acc.2)) acc =
      (notes.foldl f acc.1, acc.2) := by
  intro notes
  induction notes with
  | nil => intro acc; rfl
  | cons note rest ih => intro acc; simp [List.foldl_cons, ih]

theorem foldl_pair_snd (f : List (String × ℚ) → String → List (String × ℚ)) :
    ∀ (notes : List String) (acc : List (String × ℚ) × List (String × ℚ)),
    notes.foldl (fun acc note => (acc.1, f acc.2 note)) acc =
      (acc.1, notes.foldl f acc.2) := by
  intro notes
  induction notes with
  | nil => intro acc; rfl
  | cons note rest ih => intro acc; simp [List.foldl_cons, ih]

theorem bucketStep_high (acc : List (String × ℚ) × List (String × ℚ))
    (r : TastingRecord) (h4 : 4 ≤ r.rating) :
    bucketStep acc r =
      (r.taste_notes.foldl
        (fun d note => dictAdd d note (fullWeight r.rating)) acc.1, acc.2) := by
  unfold bucketStep
  simp only [h4, if_true]
  exact foldl_pair_fst
    (fun d note => dictAdd d note (fullWeight r.rating)) r.taste_notes acc

theorem bucketStep_low (acc : List (String × ℚ) × List (String × ℚ))
    (r : TastingRecord) (h4 : ¬ 4 ≤ r.rating) (h2 : r.rating ≤ 2) :
    bucketStep acc r =
      (acc.1, r.taste_notes.foldl
        (fun d note => dictAdd d note (fullWeight r.rating)) acc.2) := by
  unfold bucketStep
  simp only [h4, h2, if_false, if_true]
  exact foldl_pair_snd
    (fun d note => dictAdd d note (fullWeight r.rating)) r.taste_notes acc

theorem bucketStep_mid (acc : List (String × ℚ) × List (String × ℚ))
    (r : TastingRecord) (h4 : ¬ 4 ≤ r.rating) (h2 : ¬ r.rating ≤ 2) :
    bucketStep acc r = acc := by
  unfold bucketStep
  simp only [h4, h2, if_false]
  induction r.taste_notes with
  | nil => rfl
  | cons note rest ih => exact ih

theorem dictGet_foldl_bucketStep (t : String) :
    ∀ (records : List TastingRecord)
      (acc : List (String × ℚ) × List (String × ℚ)),
    dictGet (records.foldl bucketStep acc).1 t =
      dictGet acc.1 t +
        (records.map (fun r =>
          if 4 ≤ r.rating then
            (r.taste_notes.count t : ℚ) * fullWeight r.rating
          else 0)).sum ∧
    dictGet (records.foldl bucketStep acc).2 t =
      dictGet acc.2 t +
        (records.map (fun r =>
          if r.rating ≤ 2 then
            (r.taste_notes.count t : ℚ) * fullWeight r.rating
          else 0)).sum := by
  intro records
  induction records with
  | nil => intro acc; simp
  | cons r rest ih =>
    intro acc
    by_cases h4 : 4 ≤ r.rating
    · have h2 : ¬ r.rating ≤ 2 := by omega
      rw [List.foldl_cons, bucketStep_high acc r h4]
      constructor
      · rw [(ih _).1]
        simp [dictGet_foldl_notes, h4, h2]
        ring
      · rw [(ih _).2]
        simp [h4, h2]
    · by_cases h2 : r.rating ≤ 2
      · rw [List.foldl_cons, bucketStep_low acc r h4 h2]
        constructor
        · rw [(ih _).1]
          simp [h4, h2]
        · rw [(ih _).2]
          simp [dictGet_foldl_notes, h4, h2]
          ring
      · rw [List.foldl_cons, bucketStep_mid acc r h4 h2]
        constructor
        · rw [(ih _).1]
          simp [h4, h2]
        · rw [(ih _).2]
          simp [h4, h2]

/-- The claim-side full rating-weight table {5:1.0, 4:0.8, 3:0.6, 2:0.3, 1:0.1}. -/
def fullTable (rating : Nat) : ℚ :=
  if rating = 5 then 1
  else if rating = 4 then 4/5
  else if rating = 3 then 3/5
  else if rating = 2 then 3/10
  else 1/10

theorem fullWeight_eq_fullTable (rating : Nat) (h1 : 1 ≤ rating)
    (h5 : rating ≤ 5) : fullWeight rating = fullTable rating := by
  interval_cases rating <;> norm_num [fullWeight, fullTable, RATING_WEIGHTS]

theorem sum_if_count_eq_filter_sum (P : TastingRecord → Prop) [DecidablePred P]
    (f : TastingRecord → ℚ) (t : String) :
    ∀ (l : List TastingRecord), (∀ r ∈ l, r.taste_notes.Nodup) →
    (l.map (fun r =>
        if P r then (r.taste_notes.count t : ℚ) * f r else 0)).sum =
      ((l.filter (fun r => P r ∧ t ∈ r.taste_notes)).map f).sum := by
  intro l
  induction l with
  | nil => intro _; simp
  | cons r rest ih =>
    intro hnodup
    have hnodup' : ∀ x ∈ rest, x.taste_notes.Nodup :=
      fun x hx => hnodup x (List.mem_cons_of_mem r hx)
    by_cases hP : P r
    · by_cases hmem : t ∈ r.taste_notes
      · have hcount : r.taste_notes.count t = 1 :=
          List.count_eq_one_of_mem (hnodup r (List.mem_cons_self r rest)) hmem
        simp [List.filter_cons, hP, hmem, hcount, ih hnodup']
      · have hcount : r.taste_notes.count t = 0 := List.count_eq_zero.mpr hmem
        simp [List.filter_cons, hP, hmem, hcount, ih hnodup']
    · simp [List.filter_cons, hP, ih hnodup']

/-- C4: for a user with at least 5 records (ratings in 1–5, tag sets without
duplicates), `get_user_taste_analysis` returns a result whose
`main_expressions` score of a tag is the exact table-weight sum over the
records with rating ≥ 4 carrying the tag, whose `sub_expressions` score is
the same sum over the records with rating ≤ 2 (so a rating-3 record feeds
neither bucket), and whose `total_count` is the number of records. -/
theorem C4_full_analysis_buckets (kiwi : Tokenizer) (whitelist : List String)
    (records : List TastingRecord)
    (hlen : 5 ≤ records.length)
    (hnodup : ∀ r ∈ records, r.taste_notes.Nodup)
    (hrange : ∀ r ∈ records, 1 ≤ r.rating ∧ r.rating ≤ 5) :
    ∃ res, get_user_taste_analysis kiwi whitelist records = some res ∧
      (∀ t, dictGet res.main_expressions t =
        ((records.filter (fun r => 4 ≤ r.rating ∧ t ∈ r.taste_notes)).map
          (fun r => fullTable r.rating)).sum) ∧
      (∀ t, dictGet res.sub_expressions t =
        ((records.filter (fun r => r.rating ≤ 2 ∧ t ∈ r.taste_notes)).map
          (fun r => fullTable r.rating)).sum) ∧
      res.total_count = records.length := by
  have hge : ¬ records.length < 5 := not_lt.mpr hlen
  refine ⟨⟨(buckets records).1, (buckets records).2,
    parse_memo_text kiwi whitelist (collectMemos records), records.length⟩,
    ?_, ?_, ?_, ?_⟩
  · unfold get_user_taste_analysis
    rw [if_neg hge]
  · intro t
    show dictGet (buckets records).1 t = _
    unfold buckets
    rw [(dictGet_foldl_bucketStep t records ([], [])).1,
      sum_if_count_eq_filter_sum (fun r => 4 ≤ r.rating)
        (fun r => fullWeight r.rating) t records hnodup]
    have hcong :
        (List.filter (fun r => decide (4 ≤ r.rating ∧ t ∈ r.taste_notes))
            records).map (fun r => fullWeight r.rating) =
          (List.filter (fun r => decide (4 ≤ r.rating ∧ t ∈ r.taste_notes))
            records).map (fun r => fullTable r.rating) :=
      List.map_congr_left (fun r hr => by
        have hr' := hrange r (List.mem_of_mem_filter hr)
        exact fullWeight_eq_fullTable r.rating hr'.1 hr'.2)
    rw [hcong]
    simp [dictGet]
  · intro t
    show dictGet (buckets records).2 t = _
    unfold buckets
    rw [(dictGet_foldl_bucketStep t records ([], [])).2,
      sum_if_count_eq_filter_sum (fun r => r.rating ≤ 2)
        (fun r => fullWeight r.rating) t records hnodup]
    have hcong :
        (List.filter (fun r => decide (r.rating ≤ 2 ∧ t ∈ r.taste_notes))
            records).map (fun r => fullWeight r.rating) =
          (List.filter (fun r => decide (r.rating ≤ 2 ∧ t ∈ r.taste_notes))
            records).map (fun r => fullTable r.rating) :=
      List.map_congr_left (fun r hr => by
        have hr' := hrange r (List.mem_of_mem_filter hr)
        exact fullWeight_eq_fullTable r.rating hr'.1 hr'.2)
    rw [hcong]
    simp [dictGet]
  · rfl

/-- Witness for C4: a concrete 5-record user; `spicy` (rating 5) scores 1.0
in `main_expressions`, `peaty` (ratings 2 and 1) scores 0.3 + 0.1 = 0.4 in
`sub_expressions`, the rating-3 `sweet` record feeds neither bucket, and
`total_count` is 5. -/
theorem C4_witness :
    ∃ res, get_user_taste_analysis none []
      [⟨"1", "u", "w", ["spicy"], 5, "m"⟩, ⟨"2", "u", "w", ["peaty"], 2, "m"⟩,
       ⟨"3", "u", "w", ["sweet"], 3, "m"⟩, ⟨"4", "u", "w", ["oaky"], 4, "m"⟩,
       ⟨"5", "u", "w", ["peaty"], 1, "m"⟩] = some res ∧
      dictGet res.main_expressions "spicy" = 1 ∧
      dictGet res.sub_expressions "peaty" = 2/5 ∧
      dictGet res.main_expressions "sweet" = 0 ∧
      dictGet res.sub_expressions "sweet" = 0 ∧
      res.total_count = 5 := by
  obtain ⟨res, heq, hmain, hsub, hcount⟩ := C4_full_analysis_buckets none []
    [⟨"1", "u", "w", ["spicy"], 5, "m"⟩, ⟨"2", "u", "w", ["peaty"], 2, "m"⟩,
     ⟨"3", "u", "w", ["sweet"], 3, "m"⟩, ⟨"4", "u", "w", ["oaky"], 4, "m"⟩,
     ⟨"5", "u", "w", ["peaty"], 1, "m"⟩] (by decide) (by decide) (by decide)
  refine ⟨res, heq, ?_, ?_, ?_, ?_, hcount⟩
  · rw [hmain "spicy"]
    simp [fullTable]
  · rw [hsub "peaty"]
    simp [fullTable]
    norm_num
  · rw [hmain "sweet"]
    simp
  · rw [hsub "sweet"]
    simp

/-! ### C5 -/

theorem mem_countAdd (w : String) :
    ∀ (d : List (String × Nat)) (p : String × Nat),
    p ∈ countAdd d w → p ∈ d ∨ p.1 = w := by
  intro d
  induction d with
  | nil =>
    intro p hp
    right
    have h : p = (w, 1) := List.mem_singleton.mp hp
    rw [h]
  | cons q qs ih =>
    intro p hp
    by_cases hq : q.1 = w
    · simp only [countAdd, hq, if_pos] at hp
      rcases List.mem_cons.mp hp with h | h
      · right
        simp [h, hq]
      · left
        exact List.mem_cons_of_mem q h
    · simp only [countAdd, hq, if_neg, not_false_iff] at hp
      rcases List.mem_cons.mp hp with h | h
      · left
        rw [h]
        exact List.mem_cons_self q qs
      · rcases ih p h with h' | h'
        · left
          exact List.mem_cons_of_mem q h'
        · right
          exact h'

theorem countable_spec (whitelist : List String) (t : Token)
    (h : countable whitelist t = true) :
    1 < t.form.length ∧ t.form ∉ STOPWORDS ∧ t.form ∈ whitelist := by
  simp [countable] at h
  exact ⟨h.2.1.1, h.2.1.2, h.2.2⟩

theorem mem_countMemo (whitelist : List String) :
    ∀ (tokens : List Token) (d : List (String × Nat)) (p : String × Nat),
    p ∈ countMemo whitelist tokens d →
    p ∈ d ∨ (1 < p.1.length ∧ p.1 ∉ STOPWORDS ∧ p.1 ∈ whitelist) := by
  intro tokens
  induction tokens with
  | nil => intro d p hp; exact Or.inl hp
  | cons t rest ih =>
    intro d p hp
    unfold countMemo at hp
    rw [List.foldl_cons] at hp
    by_cases hc : countable whitelist t = true
    · rw [if_pos hc] at hp
      rcases ih (countAdd d t.form) p hp with h | h
      · rcases mem_countAdd t.form d p h with h' | h'
        · exact Or.inl h'
        · right
          rw [h']
          exact countable_spec whitelist t hc
      · exact Or.inr h
    · rw [if_neg hc] at hp
      exact ih d p hp

theorem mem_parse_foldl (f : String → List Token) (whitelist : List String) :
    ∀ (memos : List String) (d : List (String × Nat)) (p : String × Nat),
    p ∈ memos.foldl
      (fun d memo =>
        if memo = "" || isDeletedMemo memo then d
        else countMemo whitelist (f memo) d) d →
    p ∈ d ∨ (1 < p.1.length ∧ p.1 ∉ STOPWORDS ∧ p.1 ∈ whitelist) := by
  intro memos
  induction memos with
  | nil => intro d p hp; exact Or.inl hp
  | cons m rest ih =>
    intro d p hp
    rw [List.foldl_cons] at hp
    by_cases hm : (m = "" || isDeletedMemo m) = true
    · rw [if_pos hm] at hp
      exact ih d p hp
    · rw [if_neg hm] at hp
      rcases ih (countMemo whitelist (f m) d) p hp with h | h
      · exact mem_countMemo whitelist (f m) d p h
      · exact Or.inr h

theorem parse_foldl_filter (f : String → List Token) (whitelist : List String) :
    ∀ (memos : List String) (d : List (String × Nat)),
    memos.foldl
      (fun d memo =>
        if memo = "" || isDeletedMemo memo then d
        else countMemo whitelist (f memo) d) d =
    (memos.filter (fun m => !(m = "" || isDeletedMemo m))).foldl
      (fun d memo =>
        if memo = "" || isDeletedMemo memo then d
        else countMemo whitelist (f memo) d) d := by
  intro memos
  induction memos with
  | nil => intro d; rfl
  | cons m rest ih =>
    intro d
    rw [List.foldl_cons, List.filter_cons]
    by_cases hm : (m = "" || isDeletedMemo m) = true
    · rw [if_pos hm]
      have hneg : (!(m = "" || isDeletedMemo m)) = false := by
        rw [hm]
        rfl
      rw [hneg]
      simp only [Bool.false_eq_true, if_false]
      exact ih d
    · rw [if_neg hm]
      have hposb : (!(m = "" || isDeletedMemo m)) = true := by
        rw [Bool.eq_false_iff.mpr hm]
        rfl
      rw [hposb]
      simp only [if_true]
      rw [List.foldl_cons, if_neg hm]
      exact ih (countMemo whitelist (f m) d)

theorem countMemo_nil_whitelist :
    ∀ (tokens : List Token) (d : List (String × Nat)),
    countMemo [] tokens d = d := by
  intro tokens
  induction tokens with
  | nil => intro d; rfl
  | cons t rest ih =>
    intro d
    unfold countMemo at ih ⊢
    rw [List.foldl_cons]
    have : countable [] t = false := by
      simp [countable]
    rw [this]
    simp only [Bool.false_eq_true, if_false]
    exact ih d

/-- C5: every word of any memo-wordcloud has length > 1, is not a stopword
and belongs to the whitelist; empty and soft-deleted memos contribute
nothing; and the result is empty when the tokenizer is unavailable, the
input is empty, or the whitelist is empty. -/
theorem C5_wordcloud_filters (kiwi : Tokenizer) (whitelist : List String)
    (memo_list : List String) :
    (∀ p ∈ parse_memo_text kiwi whitelist memo_list,
      1 < p.1.length ∧ p.1 ∉ STOPWORDS ∧ p.1 ∈ whitelist) ∧
    parse_memo_text kiwi whitelist memo_list =
      parse_memo_text kiwi whitelist
        (memo_list.filter (fun m => !(m = "" || isDeletedMemo m))) ∧
    parse_memo_text none whitelist memo_list = [] ∧
    parse_memo_text kiwi whitelist [] = [] ∧
    parse_memo_text kiwi [] memo_list = [] := by
  refine ⟨?_, ?_, rfl, ?_, ?_⟩
  · intro p hp
    match kiwi with
    | none => simp [parse_memo_text] at hp
    | some f =>
      rcases mem_parse_foldl f whitelist memo_list [] p hp with h | h
      · simp at h
      · exact h
  · match kiwi with
    | none => rfl
    | some f => exact parse_foldl_filter f whitelist memo_list []
  · match kiwi with
    | none => rfl
    | some f => rfl
  · match kiwi with
    | none => rfl
    | some f =>
      show memo_list.foldl _ [] = []
      induction memo_list with
      | nil => rfl
      | cons m rest ih =>
        rw [List.foldl_cons]
        by_cases hm : (m = "" || isDeletedMemo m) = true
        · rw [if_pos hm]
          exact ih
        · rw [if_neg hm, countMemo_nil_whitelist]
          exact ih

/-- Witness for C5: a concrete tokenizer emitting a whitelisted noun, a
stopword, a short word and a non-whitelisted word; only the whitelisted
noun is counted. -/
theorem C5_witness :
    1 < ("피치" : String).length ∧ ("피치" : String) ∉ STOPWORDS ∧
      ("피치" : String) ∈ ["피치"] :=
  (C5_wordcloud_filters
    (some (fun _ =>
      [⟨"피치", "NNG"⟩, ⟨"위스키", "NNG"⟩, ⟨"물", "NNG"⟩, ⟨"바닐라", "NNG"⟩]))
    ["피치"] ["hello"]).1 ("피치", 1)
    (by
      simp [parse_memo_text, isDeletedMemo, countMemo, countable,
        STOPWORDS, countAdd]
      decide)

/-! ### C6 -/

theorem find?_set_cache {V : Type} (key : String) (v : V) (t : ℚ) :
    ∀ (st : CacheState V),
    List.find? (fun p => p.1 = key) (set_cache st key v t) = some (key, v, t) := by
  intro st
  induction st with
  | nil => simp [set_cache]
  | cons p ps ih =>
    by_cases hp : p.1 = key
    · simp [set_cache, hp]
    · simp only [set_cache, hp, if_neg, not_false_iff]
      rw [List.find?_cons_of_neg]
      · exact ih
      · simp [hp]

theorem get_cache_fresh {V : Type} (st : CacheState V) (key : String) (v : V)
    (t t' : ℚ) (h : t' - t < 300) :
    get_cache (set_cache st key v t) key t' = (some v, set_cache st key v t) := by
  unfold get_cache
  rw [find?_set_cache key v t st]
  have hlt : t' - t < CACHE_TTL := h
  simp [hlt]

theorem get_cache_expired {V : Type} (st : CacheState V) (key : String) (v : V)
    (t t' : ℚ) (h : 300 ≤ t' - t) :
    get_cache (set_cache st key v t) key t' =
      (none, List.eraseP (fun p => p.1 = key) (set_cache st key v t)) := by
  unfold get_cache
  rw [find?_set_cache key v t st]
  have hlt : ¬ t' - t < CACHE_TTL := not_lt.mpr h
  simp [hlt]

/-- C6: a cached entry is returned for reads strictly less than 300 seconds
(5 minutes) after insertion; a read at or past expiry deletes the entry and
behaves as absent; consequently, after `get_user_taste_analysis` computes
and stores a result, a second call within the TTL window returns the cached
value unchanged — whatever records the user has by then, so nothing is
recomputed — and a call at or past expiry recomputes from the current
records. -/
theorem C6_cache_ttl_roundtrip :
    (∀ (V : Type) (st : CacheState V) (key : String) (v : V) (t t' : ℚ),
      t' - t < 300 →
      get_cache (set_cache st key v t) key t' = (some v, set_cache st key v t)) ∧
    (∀ (V : Type) (st : CacheState V) (key : String) (v : V) (t t' : ℚ),
      300 ≤ t' - t →
      get_cache (set_cache st key v t) key t' =
        (none, List.eraseP (fun p => p.1 = key) (set_cache st key v t))) ∧
    (∀ (kiwi kiwi' : Tokenizer) (whitelist whitelist' : List String)
      (records records' : List TastingRecord) (user_id : String)
      (st st₁ : CacheState TasteAnalysisResult) (now now' : ℚ)
      (res : TasteAnalysisResult),
      get_cache st ("taste_analysis:" ++ user_id) now = (none, st₁) →
      get_user_taste_analysis kiwi whitelist records = some res →
      get_user_taste_analysis_cached kiwi whitelist records user_id st now =
        (some res, set_cache st₁ ("taste_analysis:" ++ user_id) res now) ∧
      (now' - now < 300 →
        get_user_taste_analysis_cached kiwi' whitelist' records' user_id
          (set_cache st₁ ("taste_analysis:" ++ user_id) res now) now' =
          (some res, set_cache st₁ ("taste_analysis:" ++ user_id) res now)) ∧
      (300 ≤ now' - now →
        (get_user_taste_analysis_cached kiwi' whitelist' records' user_id
          (set_cache st₁ ("taste_analysis:" ++ user_id) res now) now').1 =
          get_user_taste_analysis kiwi' whitelist' records')) := by
  refine ⟨?_, ?_, ?_⟩
  · intro V st key v t t' h
    exact get_cache_fresh st key v t t' h
  · intro V st key v t t' h
    exact get_cache_expired st key v t t' h
  · intro kiwi kiwi' whitelist whitelist' records records' user_id st st₁
      now now' res hmiss hcomp
    refine ⟨?_, ?_, ?_⟩
    · rw [get_user_taste_analysis_cached_of_miss kiwi whitelist records
        user_id st st₁ now hmiss, hcomp]
    · intro hfresh
      exact get_user_taste_analysis_cached_of_hit kiwi' whitelist' records'
        user_id _ _ now' res
        (get_cache_fresh st₁ ("taste_analysis:" ++ user_id) res now now' hfresh)
    · intro hexp
      rw [get_user_taste_analysis_cached_of_miss kiwi' whitelist' records'
        user_id _ _ now'
        (get_cache_expired st₁ ("taste_analysis:" ++ user_id) res now now' hexp)]
      cases hcase : get_user_taste_analysis kiwi' whitelist' records' with
      | none => rfl
      | some r => rfl

/-- Witness for C6: reads at 299 s hit, reads at 300 s evict; a concrete
full-analysis result is cached at time 0, is returned verbatim at 299 s,
and is recomputed at 300 s. -/
theorem C6_witness :
    get_cache (set_cache ([] : CacheState Nat) "k" 7 0) "k" 299 =
      (some 7, set_cache ([] : CacheState Nat) "k" 7 0) ∧
    get_cache (set_cache ([] : CacheState Nat) "k" 7 0) "k" 300 =
      (none,
        List.eraseP (fun p => p.1 = "k") (set_cache ([] : CacheState Nat) "k" 7 0)) ∧
    get_user_taste_analysis_cached none []
      [⟨"1", "u", "w", ["spicy"], 5, "m"⟩, ⟨"2", "u", "w", ["peaty"], 2, "m"⟩,
       ⟨"3", "u", "w", ["sweet"], 3, "m"⟩, ⟨"4", "u", "w", ["oaky"], 4, "m"⟩,
       ⟨"5", "u", "w", ["nutty"], 1, "m"⟩] "u" [] 0 =
      (some ⟨[("spicy", 1), ("oaky", 4/5)], [("peaty", 3/10), ("nutty", 1/10)],
         [], 5⟩,
       set_cache [] ("taste_analysis:" ++ "u")
         ⟨[("spicy", 1), ("oaky", 4/5)], [("peaty", 3/10), ("nutty", 1/10)],
          [], 5⟩ 0) ∧
    get_user_taste_analysis_cached none []
      [⟨"1", "u", "w", ["spicy"], 5, "m"⟩, ⟨"2", "u", "w", ["peaty"], 2, "m"⟩,
       ⟨"3", "u", "w", ["sweet"], 3, "m"⟩, ⟨"4", "u", "w", ["oaky"], 4, "m"⟩,
       ⟨"5", "u", "w", ["nutty"], 1, "m"⟩] "u"
      (set_cache [] ("taste_analysis:" ++ "u")
        ⟨[("spicy", 1), ("oaky", 4/5)], [("peaty", 3/10), ("nutty", 1/10)],
         [], 5⟩ 0) 299 =
      (some ⟨[("spicy", 1), ("oaky", 4/5)], [("peaty", 3/10), ("nutty", 1/10)],
         [], 5⟩,
       set_cache [] ("taste_analysis:" ++ "u")
         ⟨[("spicy", 1), ("oaky", 4/5)], [("peaty", 3/10), ("nutty", 1/10)],
          [], 5⟩ 0) ∧
    (get_user_taste_analysis_cached none []
      [⟨"1", "u", "w", ["spicy"], 5, "m"⟩, ⟨"2", "u", "w", ["peaty"], 2, "m"⟩,
       ⟨"3", "u", "w", ["sweet"], 3, "m"⟩, ⟨"4", "u", "w", ["oaky"], 4, "m"⟩,
       ⟨"5", "u", "w", ["nutty"], 1, "m"⟩] "u"
      (set_cache [] ("taste_analysis:" ++ "u")
        ⟨[("spicy", 1), ("oaky", 4/5)], [("peaty", 3/10), ("nutty", 1/10)],
         [], 5⟩ 0) 300).1 =
      get_user_taste_analysis none []
        [⟨"1", "u", "w", ["spicy"], 5, "m"⟩, ⟨"2", "u", "w", ["peaty"], 2, "m"⟩,
         ⟨"3", "u", "w", ["sweet"], 3, "m"⟩, ⟨"4", "u", "w", ["oaky"], 4, "m"⟩,
         ⟨"5", "u", "w", ["nutty"], 1, "m"⟩] := by
  have h := C6_cache_ttl_roundtrip.2.2 none none [] []
    [⟨"1", "u", "w", ["spicy"], 5, "m"⟩, ⟨"2", "u", "w", ["peaty"], 2, "m"⟩,
     ⟨"3", "u", "w", ["sweet"], 3, "m"⟩, ⟨"4", "u", "w", ["oaky"], 4, "m"⟩,
     ⟨"5", "u", "w", ["nutty"], 1, "m"⟩]
    [⟨"1", "u", "w", ["spicy"], 5, "m"⟩, ⟨"2", "u", "w", ["peaty"], 2, "m"⟩,
     ⟨"3", "u", "w", ["sweet"], 3, "m"⟩, ⟨"4", "u", "w", ["oaky"], 4, "m"⟩,
     ⟨"5", "u", "w", ["nutty"], 1, "m"⟩] "u" [] [] 0 299
    ⟨[("spicy", 1), ("oaky", 4/5)], [("peaty", 3/10), ("nutty", 1/10)], [], 5⟩
    rfl rfl
  have h2 := C6_cache_ttl_roundtrip.2.2 none none [] []
    [⟨"1", "u", "w", ["spicy"], 5, "m"⟩, ⟨"2", "u", "w", ["peaty"], 2, "m"⟩,
     ⟨"3", "u", "w", ["sweet"], 3, "m"⟩, ⟨"4", "u", "w", ["oaky"], 4, "m"⟩,
     ⟨"5", "u", "w", ["nutty"], 1, "m"⟩]
    [⟨"1", "u", "w", ["spicy"], 5, "m"⟩, ⟨"2", "u", "w", ["peaty"], 2, "m"⟩,
     ⟨"3", "u", "w", ["sweet"], 3, "m"⟩, ⟨"4", "u", "w", ["oaky"], 4, "m"⟩,
     ⟨"5", "u", "w", ["nutty"], 1, "m"⟩] "u" [] [] 0 300
    ⟨[("spicy", 1), ("oaky", 4/5)], [("peaty", 3/10), ("nutty", 1/10)], [], 5⟩
    rfl rfl
  exact ⟨C6_cache_ttl_roundtrip.1 Nat [] "k" 7 0 299 (by norm_num),
    C6_cache_ttl_roundtrip.2.1 Nat [] "k" 7 0 300 (by norm_num),
    h.1, h.2.1 (by norm_num), h2.2.2 (by norm_num)⟩

/-! ### C7 -/

theorem parse_memo_text_nil (kiwi : Tokenizer) (whitelist : List String) :
    parse_memo_text kiwi whitelist [] = [] := by
  cases kiwi <;> rfl

theorem bool_eq_of_iff {a b : Bool} (h : a = true ↔ b = true) : a = b := by
  cases a <;> cases b <;> simp_all

theorem similarQualifies_iff (user_id : String) (user_notes : List String)
    (r : TastingRecord) :
    similarQualifies user_id user_notes r = true ↔
      (r.user_id ≠ user_id ∧ r.memo ≠ "" ∧ isDeletedMemo r.memo = false ∧
        ∃ tag ∈ r.taste_notes, tag ∈ user_notes) := by
  simp [similarQualifies, and_assoc]

/-- C7: `get_similar_users_memo_wordcloud` returns the empty mapping when
the reference tags are empty; otherwise it feeds into the word-frequency
analysis exactly the memos of records not owned by the caller, with a
non-empty non-deleted memo, whose taste notes intersect the reference tags;
a record owned by the caller never qualifies. -/
theorem C7_similar_users_filter (kiwi : Tokenizer) (whitelist : List String)
    (all_records : List TastingRecord) (user_id : String)
    (user_notes : List String) :
    (user_notes = [] →
      get_similar_users_memo_wordcloud kiwi whitelist all_records user_id
        user_notes = []) ∧
    (user_notes ≠ [] →
      get_similar_users_memo_wordcloud kiwi whitelist all_records user_id
        user_notes =
        parse_memo_text kiwi whitelist
          ((all_records.filter (fun r =>
              r.user_id ≠ user_id ∧ r.memo ≠ "" ∧
              isDeletedMemo r.memo = false ∧
              ∃ tag ∈ r.taste_notes, tag ∈ user_notes)).map
            (fun r => r.memo))) ∧
    (∀ r ∈ all_records, r.user_id = user_id →
      similarQualifies user_id user_notes r = false) := by
  have hfilt :
      all_records.filter (similarQualifies user_id user_notes) =
        all_records.filter (fun r => decide
          (r.user_id ≠ user_id ∧ r.memo ≠ "" ∧ isDeletedMemo r.memo = false ∧
            ∃ tag ∈ r.taste_notes, tag ∈ user_notes)) :=
    List.filter_congr (fun r _ => bool_eq_of_iff
      (by rw [similarQualifies_iff, decide_eq_true_eq]))
  refine ⟨?_, ?_, ?_⟩
  · intro h
    rw [h]
    rfl
  · intro hne
    have hne' : ¬ (user_notes.isEmpty = true) := by
      simp [List.isEmpty_iff, hne]
    unfold get_similar_users_memo_wordcloud
    rw [if_neg hne']
    by_cases hm :
        ((all_records.filter (similarQualifies user_id user_notes)).map
          (fun r => r.memo)).isEmpty
    · rw [if_pos hm]
      rw [List.isEmpty_iff] at hm
      rw [hfilt] at hm
      rw [hm]
      exact (parse_memo_text_nil kiwi whitelist).symm
    · rw [if_neg hm]
      rw [hfilt]
  · intro r _ hr
    simp [similarQualifies, hr]

/-- Witness for C7: a caller-owned record tagged `peaty` is excluded while
another user's `peaty` record feeds its memo into the analysis; with no
reference tags the result is empty. -/
theorem C7_witness :
    get_similar_users_memo_wordcloud none []
      [⟨"1", "me", "w", ["peaty"], 5, "mine"⟩,
       ⟨"2", "other", "w", ["peaty"], 4, "theirs"⟩] "me" [] = [] ∧
    get_similar_users_memo_wordcloud none []
      [⟨"1", "me", "w", ["peaty"], 5, "mine"⟩,
       ⟨"2", "other", "w", ["peaty"], 4, "theirs"⟩] "me" ["peaty"] =
      parse_memo_text none []
        ((([⟨"1", "me", "w", ["peaty"], 5, "mine"⟩,
           ⟨"2", "other", "w", ["peaty"], 4, "theirs"⟩] :
             List TastingRecord).filter
            (fun r => r.user_id ≠ "me" ∧ r.memo ≠ "" ∧
              isDeletedMemo r.memo = false ∧
              ∃ tag ∈ r.taste_notes, tag ∈ ["peaty"])).map
          (fun r => r.memo)) ∧
    similarQualifies "me" ["peaty"]
      ⟨"1", "me", "w", ["peaty"], 5, "mine"⟩ = false := by
  have h := C7_similar_users_filter none []
    [⟨"1", "me", "w", ["peaty"], 5, "mine"⟩,
     ⟨"2", "other", "w", ["peaty"], 4, "theirs"⟩] "me" ["peaty"]
  have h0 := C7_similar_users_filter none []
    [⟨"1", "me", "w", ["peaty"], 5, "mine"⟩,
     ⟨"2", "other", "w", ["peaty"], 4, "theirs"⟩] "me" []
  exact ⟨h0.1 rfl, h.2.1 (by decide),
    h.2.2 ⟨"1", "me", "w", ["peaty"], 5, "mine"⟩ (by decide) rfl⟩

/-! ### C8 -/

theorem productQualifies_iff (user_id whiskey_name : String)
    (r : TastingRecord) :
    productQualifies user_id whiskey_name r = true ↔
      (r.user_id ≠ user_id ∧ r.whiskey_name = whiskey_name ∧ r.memo ≠ "" ∧
        isDeletedMemo r.memo = false) := by
  simp [productQualifies, and_assoc]

/-- C8: `get_product_reviews_wordcloud` keeps exactly the records of other
users whose product name matches exactly (string equality, hence
case-sensitive) and whose memo is non-empty and not soft-deleted; with no
surviving memo it returns `has_data = false`, an empty wordcloud and
`count = 0`, otherwise `has_data = true` with `count` the number of
surviving memos. -/
theorem C8_product_reviews_filter (kiwi : Tokenizer) (whitelist : List String)
    (all_records : List TastingRecord) (user_id whiskey_name : String) :
    (all_records.filter (fun r =>
        r.user_id ≠ user_id ∧ r.whiskey_name = whiskey_name ∧ r.memo ≠ "" ∧
        isDeletedMemo r.memo = false) = [] →
      get_product_reviews_wordcloud kiwi whitelist all_records user_id
        whiskey_name = ⟨[], 0, false⟩) ∧
    (∀ quals,
      all_records.filter (fun r =>
        r.user_id ≠ user_id ∧ r.whiskey_name = whiskey_name ∧ r.memo ≠ "" ∧
        isDeletedMemo r.memo = false) = quals →
      quals ≠ [] →
      get_product_reviews_wordcloud kiwi whitelist all_records user_id
        whiskey_name =
        ⟨parse_memo_text kiwi whitelist (quals.map (fun r => r.memo)),
         quals.length, true⟩) := by
  have hfilt :
      all_records.filter (productQualifies user_id whiskey_name) =
        all_records.filter (fun r => decide
          (r.user_id ≠ user_id ∧ r.whiskey_name = whiskey_name ∧
            r.memo ≠ "" ∧ isDeletedMemo r.memo = false)) :=
    List.filter_congr (fun r _ => bool_eq_of_iff
      (by rw [productQualifies_iff, decide_eq_true_eq]))
  constructor
  · intro h
    unfold get_product_reviews_wordcloud
    rw [hfilt, h]
    rfl
  · intro quals hq hne
    unfold get_product_reviews_wordcloud
    rw [hfilt, hq]
    have hm : ¬ ((quals.map (fun r => r.memo)).isEmpty = true) := by
      simp [List.isEmpty_iff, hne]
    rw [if_neg hm]
    simp

/-- Witness for C8: with exactly two other-user reviews of the exact product
name, `count = 2` and `has_data = true`; with zero qualifying reviews of
another product name, `has_data = false` and `count = 0`. -/
theorem C8_witness :
    get_product_reviews_wordcloud none []
      [⟨"1", "me", "Glenfiddich 12", ["peaty"], 5, "mine"⟩,
       ⟨"2", "a", "Glenfiddich 12", ["peaty"], 4, "nice"⟩,
       ⟨"3", "b", "Glenfiddich 12", ["sweet"], 3, "good"⟩,
       ⟨"4", "c", "glenfiddich 12", ["sweet"], 3, "case"⟩] "me"
      "Glenfiddich 12" =
      ⟨parse_memo_text none []
        ((([⟨"2", "a", "Glenfiddich 12", ["peaty"], 4, "nice"⟩,
            ⟨"3", "b", "Glenfiddich 12", ["sweet"], 3, "good"⟩] :
              List TastingRecord)).map (fun r => r.memo)),
       2, true⟩ ∧
    get_product_reviews_wordcloud none []
      [⟨"1", "me", "Glenfiddich 12", ["peaty"], 5, "mine"⟩,
       ⟨"2", "a", "Glenfiddich 12", ["peaty"], 4, "nice"⟩] "me"
      "Lagavulin 16" = ⟨[], 0, false⟩ := by
  constructor
  · exact (C8_product_reviews_filter none []
      [⟨"1", "me", "Glenfiddich 12", ["peaty"], 5, "mine"⟩,
       ⟨"2", "a", "Glenfiddich 12", ["peaty"], 4, "nice"⟩,
       ⟨"3", "b", "Glenfiddich 12", ["sweet"], 3, "good"⟩,
       ⟨"4", "c", "glenfiddich 12", ["sweet"], 3, "case"⟩] "me"
      "Glenfiddich 12").2
      [⟨"2", "a", "Glenfiddich 12", ["peaty"], 4, "nice"⟩,
       ⟨"3", "b", "Glenfiddich 12", ["sweet"], 3, "good"⟩]
      (by decide) (by decide)
  · exact (C8_product_reviews_filter none []
      [⟨"1", "me", "Glenfiddich 12", ["peaty"], 5, "mine"⟩,
       ⟨"2", "a", "Glenfiddich 12", ["peaty"], 4, "nice"⟩] "me"
      "Lagavulin 16").1 (by decide)

/-! ### C9 -/

theorem filter_insertDesc (p : String × ℚ) (s : ℚ) :
    ∀ (m : List (String × ℚ)),
    (insertDesc p m).filter (fun q => q.2 = s) =
      if p.2 = s then p :: m.filter (fun q => q.2 = s)
      else m.filter (fun q => q.2 = s) := by
  intro m
  induction m with
  | nil => by_cases hs : p.2 = s <;> simp [insertDesc, hs]
  | cons q qs ih =>
    by_cases hq : q.2 ≤ p.2
    · rw [insertDesc, if_pos hq]
      by_cases hs : p.2 = s
      · by_cases hqs : q.2 = s <;> simp [List.filter_cons, hs, hqs]
      · by_cases hqs : q.2 = s <;> simp [List.filter_cons, hs, hqs]
    · rw [insertDesc, if_neg hq]
      by_cases hs : p.2 = s
      · have hqs : ¬ (q.2 = s) := fun h => hq (le_of_eq (h.trans hs.symm))
        simp [List.filter_cons, hqs, ih, hs]
      · by_cases hqs : q.2 = s <;> simp [List.filter_cons, hqs, ih, hs]

theorem mem_insertDesc (p x : String × ℚ) :
    ∀ (m : List (String × ℚ)), x ∈ insertDesc p m → x = p ∨ x ∈ m := by
  intro m
  induction m with
  | nil =>
    intro hx
    simp [insertDesc] at hx
    exact Or.inl hx
  | cons q qs ih =>
    intro hx
    by_cases hq : q.2 ≤ p.2
    · rw [insertDesc, if_pos hq] at hx
      rcases List.mem_cons.mp hx with h | h
      · exact Or.inl h
      · exact Or.inr h
    · rw [insertDesc, if_neg hq] at hx
      rcases List.mem_cons.mp hx with h | h
      · right
        rw [h]
        exact List.mem_cons_self q qs
      · rcases ih h with h' | h'
        · exact Or.inl h'
        · exact Or.inr (List.mem_cons_of_mem q h')

theorem pairwise_insertDesc (p : String × ℚ) :
    ∀ (m : List (String × ℚ)),
    List.Pairwise (fun a b => b.2 ≤ a.2) m →
    List.Pairwise (fun a b => b.2 ≤ a.2) (insertDesc p m) := by
  intro m
  induction m with
  | nil => intro _; simp [insertDesc]
  | cons q qs ih =>
    intro h
    rw [List.pairwise_cons] at h
    by_cases hq : q.2 ≤ p.2
    · rw [insertDesc, if_pos hq, List.pairwise_cons]
      refine ⟨?_, List.Pairwise.cons h.1 h.2⟩
      intro x hx
      rcases List.mem_cons.mp hx with h' | h'
      · rw [h']
        exact hq
      · exact le_trans (h.1 x h') hq
    · rw [insertDesc, if_neg hq, List.pairwise_cons]
      refine ⟨?_, ih h.2⟩
      intro x hx
      rcases mem_insertDesc p x qs hx with h' | h'
      · rw [h']
        exact le_of_not_le hq
      · exact h.1 x h'

theorem perm_insertDesc (p : String × ℚ) :
    ∀ (m : List (String × ℚ)), (insertDesc p m).Perm (p :: m) := by
  intro m
  induction m with
  | nil => simp [insertDesc]
  | cons q qs ih =>
    by_cases hq : q.2 ≤ p.2
    · rw [insertDesc, if_pos hq]
    · rw [insertDesc, if_neg hq]
      exact (List.Perm.cons q ih).trans (List.Perm.swap p q qs)

/-- C9: the trend analysis is a pure function of its input record list, the
sort of `analyze_recent_taste_trend` is a permutation ordered by descending
weighted score, and it is stable: tags of equal score stay in accumulation
(first-encounter) order — demonstrated concretely by tag `z`, accumulated
before `a` with an equal score, staying ahead of the alphabetically smaller
`a`. -/
theorem C9_sort_deterministic_stable :
    (∀ (records : List TastingRecord) (n : Nat),
      analyze_recent_taste_trend records n =
        analyze_recent_taste_trend records n) ∧
    (∀ (l : List (String × ℚ)) (s : ℚ),
      (sortDesc l).filter (fun q => q.2 = s) = l.filter (fun q => q.2 = s)) ∧
    (∀ l : List (String × ℚ),
      List.Pairwise (fun a b => b.2 ≤ a.2) (sortDesc l)) ∧
    (∀ l : List (String × ℚ), (sortDesc l).Perm l) ∧
    sortDesc (accumWeighted (recentFiltered
      [⟨"1", "u", "w", ["z", "a"], 4, "m"⟩, ⟨"2", "u", "w", [], 3, "m"⟩,
       ⟨"3", "u", "w", [], 3, "m"⟩, ⟨"4", "u", "w", [], 3, "m"⟩,
       ⟨"5", "u", "w", [], 3, "m"⟩] 10)) = [("z", 4/5), ("a", 4/5)] := by
  refine ⟨fun _ _ => rfl, ?_, ?_, ?_, ?_⟩
  · intro l s
    induction l with
    | nil => rfl
    | cons x xs ih =>
      show (insertDesc x (sortDesc xs)).filter _ = _
      rw [filter_insertDesc x s (sortDesc xs), List.filter_cons]
      by_cases hs : x.2 = s
      · simp [hs, ih]
      · simp [hs, ih]
  · intro l
    induction l with
    | nil => exact List.Pairwise.nil
    | cons x xs ih => exact pairwise_insertDesc x (sortDesc xs) ih
  · intro l
    induction l with
    | nil => exact List.Perm.refl []
    | cons x xs ih =>
      exact ((perm_insertDesc x (sortDesc xs)).trans (ih.cons x))
  · norm_num [recentFiltered, accumWeighted, accumRecord, dictAdd,
      sortDesc, recentWeight, RATING_WEIGHTS]
    simp only [String.reduceEq, if_false]
    norm_num [insertDesc]

/-! ### C10 -/

theorem dictHasKey_dictAdd_self (k : String) (w : ℚ) :
    ∀ (d : List (String × ℚ)), dictHasKey (dictAdd d k w) k = true := by
  intro d
  induction d with
  | nil => simp [dictAdd, dictHasKey]
  | cons p ps ih =>
    by_cases hp : p.1 = k
    · simp [dictAdd, hp, dictHasKey]
    · simp only [dictAdd, hp, if_neg, not_false_iff, dictHasKey, List.any_cons]
      simp only [dictHasKey] at ih
      simp [ih]

theorem dictHasKey_dictAdd_mono (k m : String) (w : ℚ) :
    ∀ (d : List (String × ℚ)),
    dictHasKey d m = true → dictHasKey (dictAdd d k w) m = true := by
  intro d
  induction d with
  | nil => intro h; simp [dictHasKey] at h
  | cons p ps ih =>
    intro h
    by_cases hp : p.1 = k
    · simp only [dictHasKey, List.any_cons, Bool.or_eq_true] at h
      simp only [dictAdd, hp, if_pos, dictHasKey, List.any_cons,
        Bool.or_eq_true]
      rcases h with h | h
      · left
        rw [← hp]
        exact h
      · right
        exact h
    · simp only [dictHasKey, List.any_cons, Bool.or_eq_true] at h
      simp only [dictAdd, hp, if_neg, not_false_iff, dictHasKey,
        List.any_cons, Bool.or_eq_true]
      rcases h with h | h
      · left
        exact h
      · right
        exact ih h

theorem dictHasKey_foldl_notes_mono (w : ℚ) (t : String) :
    ∀ (notes : List String) (d : List (String × ℚ)),
    dictHasKey d t = true →
    dictHasKey (notes.foldl (fun d note => dictAdd d note w) d) t = true := by
  intro notes
  induction notes with
  | nil => intro d h; exact h
  | cons note rest ih =>
    intro d h
    rw [List.foldl_cons]
    exact ih (dictAdd d note w) (dictHasKey_dictAdd_mono note t w d h)

theorem dictHasKey_foldl_notes_self (w : ℚ) (t : String) :
    ∀ (notes : List String) (d : List (String × ℚ)), t ∈ notes →
    dictHasKey (notes.foldl (fun d note => dictAdd d note w) d) t = true := by
  intro notes
  induction notes with
  | nil => intro d h; simp at h
  | cons note rest ih =>
    intro d h
    rw [List.foldl_cons]
    rcases List.mem_cons.mp h with h' | h'
    · rw [h']
      exact dictHasKey_foldl_notes_mono w note rest (dictAdd d note w)
        (dictHasKey_dictAdd_self note w d)
    · exact ih (dictAdd d note w) h'

theorem dictHasKey_bucketStep_snd_mono (t : String)
    (acc : List (String × ℚ) × List (String × ℚ)) (r : TastingRecord)
    (h : dictHasKey acc.2 t = true) :
    dictHasKey (bucketStep acc r).2 t = true := by
  by_cases h4 : 4 ≤ r.rating
  · rw [bucketStep_high acc r h4]
    exact h
  · by_cases h2 : r.rating ≤ 2
    · rw [bucketStep_low acc r h4 h2]
      exact dictHasKey_foldl_notes_mono (fullWeight r.rating) t
        r.taste_notes acc.2 h
    · rw [bucketStep_mid acc r h4 h2]
      exact h

theorem dictHasKey_foldl_bucketStep_snd_mono (t : String) :
    ∀ (records : List TastingRecord)
      (acc : List (String × ℚ) × List (String × ℚ)),
    dictHasKey acc.2 t = true →
    dictHasKey ((records.foldl bucketStep acc)).2 t = true := by
  intro records
  induction records with
  | nil => intro acc h; exact h
  | cons r rest ih =>
    intro acc h
    rw [List.foldl_cons]
    exact ih (bucketStep acc r) (dictHasKey_bucketStep_snd_mono t acc r h)

theorem dictHasKey_buckets_snd (t : String) :
    ∀ (records : List TastingRecord)
      (acc : List (String × ℚ) × List (String × ℚ)) (r : TastingRecord),
    r ∈ records → r.rating ≤ 2 → t ∈ r.taste_notes →
    dictHasKey ((records.foldl bucketStep acc)).2 t = true := by
  intro records
  induction records with
  | nil => intro acc r h; simp at h
  | cons x rest ih =>
    intro acc r hmem h2 ht
    rw [List.foldl_cons]
    rcases List.mem_cons.mp hmem with h' | h'
    · subst h'
      have h4 : ¬ 4 ≤ r.rating := by omega
      apply dictHasKey_foldl_bucketStep_snd_mono t rest
      rw [bucketStep_low acc r h4 h2]
      exact dictHasKey_foldl_notes_self (fullWeight r.rating) t
        r.taste_notes acc.2 ht
    · exact ih (bucketStep acc x) r h' h2 ht

/-- C10: ratings outside 1–5 are not rejected by the analyzers: the weight
table is undefined there, `analyze_recent_taste_trend` falls back to the
default weight 0.6 for a surviving record (e.g. a rating-6 record, which
passes the `rating >= 3` filter and scores 0.6), and `get_user_taste_analysis`
falls back to weight 0, so a rating-0 record still inserts its tags into
`sub_expressions`, with a zero score increment. -/
theorem C10_out_of_range_ratings (kiwi : Tokenizer) (whitelist : List String)
    (records : List TastingRecord) (r : TastingRecord) (t : String)
    (hlen : 5 ≤ records.length) (hr : r ∈ records) (h0 : r.rating = 0)
    (ht : t ∈ r.taste_notes) :
    (∀ rating, 6 ≤ rating →
      RATING_WEIGHTS rating = none ∧ recentWeight rating = 3/5) ∧
    (∀ rating, RATING_WEIGHTS rating = none → fullWeight rating = 0) ∧
    dictGet (accumWeighted (recentFiltered
      [⟨"1", "u", "w", ["spicy"], 6, "m"⟩, ⟨"2", "u", "w", [], 2, "m"⟩,
       ⟨"3", "u", "w", [], 2, "m"⟩, ⟨"4", "u", "w", [], 2, "m"⟩,
       ⟨"5", "u", "w", [], 2, "m"⟩] 10)) "spicy" = 3/5 ∧
    (∃ res, get_user_taste_analysis kiwi whitelist records = some res ∧
      dictHasKey res.sub_expressions t = true ∧ fullWeight r.rating = 0) := by
  refine ⟨?_, ?_, rfl, ?_⟩
  · intro rating h6
    have e5 : rating ≠ 5 := by omega
    have e4 : rating ≠ 4 := by omega
    have e3 : rating ≠ 3 := by omega
    have e2 : rating ≠ 2 := by omega
    have e1 : rating ≠ 1 := by omega
    constructor
    · simp [RATING_WEIGHTS, e5, e4, e3, e2, e1]
    · simp [recentWeight, RATING_WEIGHTS, e5, e4, e3, e2, e1]
  · intro rating h
    simp [fullWeight, h]
  · have hge : ¬ records.length < 5 := not_lt.mpr hlen
    refine ⟨⟨(buckets records).1, (buckets records).2,
      parse_memo_text kiwi whitelist (collectMemos records),
      records.length⟩, ?_, ?_, ?_⟩
    · unfold get_user_taste_analysis
      rw [if_neg hge]
    · show dictHasKey (buckets records).2 t = true
      unfold buckets
      exact dictHasKey_buckets_snd t records ([], []) r hr (by omega) ht
    · rw [h0]
      rfl

/-- Witness for C10: a concrete user whose rating-0 record tagged `peaty`
surfaces `peaty` in `sub_expressions` with weight 0. -/
theorem C10_witness :
    ∃ res, get_user_taste_analysis none []
      [⟨"1", "u", "w", ["peaty"], 0, "m"⟩, ⟨"2", "u", "w", ["spicy"], 5, "m"⟩,
       ⟨"3", "u", "w", [], 3, "m"⟩, ⟨"4", "u", "w", [], 3, "m"⟩,
       ⟨"5", "u", "w", [], 3, "m"⟩] = some res ∧
      dictHasKey res.sub_expressions "peaty" = true ∧
      fullWeight (⟨"1", "u", "w", ["peaty"], 0, "m"⟩ : TastingRecord).rating = 0 :=
  (C10_out_of_range_ratings none []
    [⟨"1", "u", "w", ["peaty"], 0, "m"⟩, ⟨"2", "u", "w", ["spicy"], 5, "m"⟩,
     ⟨"3", "u", "w", [], 3, "m"⟩, ⟨"4", "u", "w", [], 3, "m"⟩,
     ⟨"5", "u", "w", [], 3, "m"⟩]
    ⟨"1", "u", "w", ["peaty"], 0, "m"⟩ "peaty"
    (by decide) (by decide) rfl (by decide)).2.2.2

end Renew
